import Mathlib

/-!
Name binding and string pool of the VSL compiler skeleton (symbols.c).

A shallow embedding of `src/ps4_skeleton/src/symbols.c`.

* Symbol tables live in a heap (a list indexed by address); a table pointer is
  `Option Nat`, where `none` is a pointer that designates no table (NULL).
* Every function that can dereference such a pointer, index past an array or
  write outside allocated storage returns `Option`: `none` is "no defined
  result" (undefined behaviour in C).
* `size_t` values are natural numbers reduced modulo `2 ^ 64`.
-/

namespace Symbols

/-! ## Data model -/

/-- Modelled from the spec: the node kinds of the AST. The enum is declared in a
header that is not part of the source; the constructors are the kinds that
symbols.c names, and `OTHER` stands for every remaining kind. -/
inductive node_type_t where
  | GLOBAL
  | FUNCTION
  | FUNCTION_DATA
  | BLOCK
  | IDENTIFIER_DATA
  | STRING_DATA
  | STRING_LIST_REFERENCE
  | OTHER (tag : Nat)
  deriving DecidableEq, Repr

/-- Modelled from the spec: the payload of a node (`void *data`): nothing, a
text (a name or a literal), or a position in the string list cast to a pointer. -/
inductive data_t where
  | null
  | text (s : String)
  | position (n : Nat)
  deriving DecidableEq, Repr

/-- Modelled from the spec: the symbol kinds. The enum is declared in a header
that is not part of the source. The spec lists global-variable, global-array,
function, local-variable and parameter; symbols.c names `SYMBOL_GLOBAL` and
`SYMBOL_LOCAL`, read here as the global-variable and the local-variable kind. -/
inductive symtype_t where
  | SYMBOL_GLOBAL
  | SYMBOL_GLOBAL_ARRAY
  | SYMBOL_FUNCTION
  | SYMBOL_LOCAL
  | SYMBOL_PARAMETER
  deriving DecidableEq, Repr

/-- Modelled from the spec: a symbol record. The fields are the ones symbols.c
assigns; `node` is the address of the declaring AST node, `data` the auxiliary
slot (`none` is NULL). -/
structure symbol_t where
  name : data_t
  type : symtype_t
  stack_offset : Nat
  data : Option Nat
  node : Nat
  deriving DecidableEq, Repr

/-- Modelled from the spec: a scope frame. `symbols` lists the inserted symbols
in insertion order, `backup` is the link to the enclosing frame. -/
structure symbol_table_t where
  symbols : List symbol_t
  backup : Option Nat
  deriving DecidableEq, Repr

/-- Modelled from the spec: what `node->entry` can hold: nothing, a resolved
symbol, or a local symbol table (by address). -/
inductive entry_t where
  | null
  | symbol (s : symbol_t)
  | table (t : Nat)
  deriving DecidableEq, Repr

/-- Modelled from the spec: an AST node. `addr` is the address of the node and
stands for pointer identity; `children` is the ordered child sequence. -/
structure node_t where
  addr : Nat
  type : node_type_t
  data : data_t
  entry : entry_t
  children : List node_t

/-- The global variables of symbols.c together with the heap of symbol tables.
`string_list` is the backing storage of the string list: one cell per allocated
`char *` slot, `none` for a slot never written. -/
structure state_t where
  heap : List symbol_table_t
  global_symbols : Option Nat
  string_list : List (Option String)
  string_list_len : Nat
  string_list_capacity : Nat
  deriving DecidableEq, Repr

/-- The state at program start: the four globals have no initialiser, so the
pointers are NULL and the two sizes are zero; no table has been allocated. -/
def initial_state : state_t :=
  { heap := [], global_symbols := none, string_list := [],
    string_list_len := 0, string_list_capacity := 0 }

/-- The modulus of `size_t` arithmetic. -/
def SIZE_MOD : Nat := 2 ^ 64

/-- The value of `sizeof ( char* )`. -/
def SIZEOF_PTR : Nat := 8

/-! ## Symbol table operations (symbol_table.h) -/

/-- Modelled from the spec: `symbol_table_init` (the spec's `create`), which is
declared outside the source: allocates an empty frame with no enclosing scope
and returns the new heap with the address of the frame. -/
def symbol_table_init (heap : List symbol_table_t) : List symbol_table_t × Nat :=
  (heap ++ [{ symbols := [], backup := none }], heap.length)

/-- Modelled from the spec: `symbol_table_insert` (the spec's `insert`), which is
declared outside the source: adds the symbol to this exact frame, after the
symbols inserted before; enclosing scopes are not searched. No result when the
pointer designates no table. -/
def symbol_table_insert (heap : List symbol_table_t) (table : Option Nat)
    (symbol : symbol_t) : Option (List symbol_table_t) :=
  match table with
  | none => none
  | some p =>
    match heap[p]? with
    | none => none
    | some t => some (heap.set p { t with symbols := t.symbols ++ [symbol] })

/-- Modelled from the spec: the lookup inside one frame. The last inserted symbol
with the name wins, so inserting a name again replaces the earlier symbol for
every lookup. -/
def frame_find (t : symbol_table_t) (name : data_t) : Option symbol_t :=
  t.symbols.reverse.find? (fun s => decide (s.name = name))

/-- Modelled from the spec: the scope-chain walk of `symbol_table_find`: this
frame, then the enclosing frames outward, first match wins. The outer `none`
means no result (a dangling link, or the fuel ran out on a cyclic chain); the
result `some none` is not-found (NULL). -/
def symbol_table_find_from : Nat → List symbol_table_t → Option Nat → data_t →
    Option (Option symbol_t)
  | 0, _, _, _ => none
  | _ + 1, _, none, _ => some none
  | fuel + 1, heap, some p, name =>
    match heap[p]? with
    | none => none
    | some t =>
      match frame_find t name with
      | some s => some (some s)
      | none => symbol_table_find_from fuel heap t.backup name

/-- Modelled from the spec: `symbol_table_find` (the spec's `lookup`), which is
declared outside the source. No result when the pointer designates no table.
The fuel `heap.length + 1` is enough for every acyclic chain in the heap. -/
def symbol_table_find (heap : List symbol_table_t) (table : Option Nat)
    (name : data_t) : Option (Option symbol_t) :=
  match table with
  | none => none
  | some p => symbol_table_find_from (heap.length + 1) heap (some p) name

/-- A `symbol_t *` stored into `node->entry`: NULL or the symbol. -/
def entry_of_symbol : Option symbol_t → entry_t
  | none => entry_t.null
  | some s => entry_t.symbol s

/-- The value of `node->entry` read as a `symbol_table_t *`: only an attached
table is a pointer to a table. -/
def table_of_entry : entry_t → Option Nat
  | entry_t.table t => some t
  | _ => none

/-! ## The string list -/

/-- The call `realloc ( string_list, bytes )`: the storage afterwards has
`bytes / sizeof ( char* )` whole slots; the old slots that still fit keep their
content, the new ones are unwritten. -/
def realloc_slots (string_list : List (Option String)) (bytes : Nat) :
    List (Option String) :=
  let n := bytes / SIZEOF_PTR
  string_list.take n ++ List.replicate (n - string_list.length) none

/-- Lines 165-168 of `add_string`: the resize step. -/
def add_string_grow (st : state_t) : state_t :=
  if st.string_list_len = st.string_list_capacity then
    let capacity := (st.string_list_capacity * 2) % SIZE_MOD
    { st with
      string_list_capacity := capacity
      string_list := realloc_slots st.string_list ((capacity * SIZEOF_PTR) % SIZE_MOD) }
  else st

/-- Lines 169-170 of `add_string`: the store `string_list[ string_list_len ] =
string` and `return string_list_len++`. No result when the slot lies outside the
backing storage. -/
def add_string_store (st : state_t) (string : String) : Option (state_t × Nat) :=
  if st.string_list_len < st.string_list.length then
    some ({ st with
            string_list := st.string_list.set st.string_list_len (some string)
            string_list_len := (st.string_list_len + 1) % SIZE_MOD },
          st.string_list_len)
  else none

/-- The function `add_string`: resize if needed, store, return the position. -/
def add_string (st : state_t) (string : String) : Option (state_t × Nat) :=
  add_string_store (add_string_grow st) string

/-- Successive `add_string` calls; the result lists the returned positions. -/
def add_strings : state_t → List String → Option (state_t × List Nat)
  | st, [] => some (st, [])
  | st, s :: rest =>
    match add_string st s with
    | none => none
    | some (st1, i) =>
      match add_strings st1 rest with
      | none => none
      | some (st2, is) => some (st2, i :: is)

/-! ## find_globals, bind_names, create_tables -/

/-- The symbol built in the inner loop of `find_globals` (lines 80-85). -/
def global_symbol (global : node_t) : symbol_t :=
  { name := global.data, type := symtype_t.SYMBOL_GLOBAL, stack_offset := 0,
    data := none, node := global.addr }

/-- The inner loop of `find_globals` (lines 78-87) over the children of one
`GLOBAL` node. -/
def find_globals_inner (global_symbols : Option Nat) :
    List symbol_table_t → List node_t → Option (List symbol_table_t)
  | heap, [] => some heap
  | heap, global :: rest =>
    match symbol_table_insert heap global_symbols (global_symbol global) with
    | none => none
    | some heap1 => find_globals_inner global_symbols heap1 rest

/-- The outer loop of `find_globals` (lines 75-89) over the children of the
syntax tree. -/
def find_globals_outer (global_symbols : Option Nat) :
    List symbol_table_t → List node_t → Option (List symbol_table_t)
  | heap, [] => some heap
  | heap, child :: rest =>
    if child.type = node_type_t.GLOBAL then
      match find_globals_inner global_symbols heap child.children with
      | none => none
      | some heap1 => find_globals_outer global_symbols heap1 rest
    else find_globals_outer global_symbols heap rest

/-- The function `find_globals`: returns the state after the loops together
with the returned pointer `global_symbols`. -/
def find_globals (st : state_t) (tree : node_t) : Option (state_t × Option Nat) :=
  match find_globals_outer st.global_symbols st.heap tree.children with
  | none => none
  | some heap1 => some ({ st with heap := heap1 }, st.global_symbols)

/-- The symbol built in the parameter loop of `bind_names` (lines 118-123). -/
def parameter_symbol (parameter : node_t) : symbol_t :=
  { name := parameter.data, type := symtype_t.SYMBOL_LOCAL, stack_offset := 0,
    data := none, node := parameter.addr }

/-- The parameter loop of `bind_names` (lines 116-125). -/
def bind_parameters (function_symbols : Option Nat) :
    List symbol_table_t → List node_t → Option (List symbol_table_t)
  | heap, [] => some heap
  | heap, parameter :: rest =>
    match symbol_table_insert heap function_symbols (parameter_symbol parameter) with
    | none => none
    | some heap1 => bind_parameters function_symbols heap1 rest

/-- The `FUNCTION_DATA` branch of `bind_names` (lines 113-127). -/
def bind_names_function (st : state_t) (node : node_t) : Option (state_t × node_t) :=
  if node.type = node_type_t.FUNCTION_DATA then
    let (heap1, function_symbols) := symbol_table_init st.heap
    match node.children[0]? with
    | none => none
    | some parameters =>
      match bind_parameters (some function_symbols) heap1 parameters.children with
      | none => none
      | some heap2 =>
        some ({ st with heap := heap2 },
              { node with entry := entry_t.table function_symbols })
  else some (st, node)

/-- The `BLOCK` branch of `bind_names` (lines 129-133). -/
def bind_names_block (st : state_t) (local_symbols : Option Nat) (node : node_t) :
    Option (state_t × node_t) :=
  if node.type = node_type_t.BLOCK then
    match local_symbols with
    | none => none
    | some l =>
      match st.heap[l]? with
      | none => none
      | some t =>
        let backup := t.backup
        let (heap1, fresh) := symbol_table_init st.heap
        let heap2 := heap1.set l { t with backup := some fresh }
        match heap2[fresh]? with
        | none => none
        | some f =>
          some ({ st with heap := heap2.set fresh { f with backup := backup } }, node)
  else some (st, node)

/-- The `IDENTIFIER_DATA` branch of `bind_names` (lines 135-141). -/
def bind_names_identifier (st : state_t) (local_symbols : Option Nat) (node : node_t) :
    Option (state_t × node_t) :=
  if node.type = node_type_t.IDENTIFIER_DATA then
    match symbol_table_find st.heap local_symbols node.data with
    | none => none
    | some (some symbol) => some (st, { node with entry := entry_of_symbol (some symbol) })
    | some none =>
      match symbol_table_find st.heap st.global_symbols node.data with
      | none => none
      | some symbol => some (st, { node with entry := entry_of_symbol symbol })
  else some (st, node)

/-- The function `bind_names`: the three `if` statements in sequence. The
result is the state and the node after the call. -/
def bind_names (st : state_t) (local_symbols : Option Nat) (node : node_t) :
    Option (state_t × node_t) :=
  match bind_names_function st node with
  | none => none
  | some (st1, node1) =>
    match bind_names_block st1 local_symbols node1 with
    | none => none
    | some (st2, node2) => bind_names_identifier st2 local_symbols node2

/-- The loop of `create_tables` (lines 29-34) over the children of the syntax
tree; the result lists the children after the loop. -/
def create_tables_loop : state_t → List node_t → Option (state_t × List node_t)
  | st, [] => some (st, [])
  | st, child :: rest =>
    if child.type = node_type_t.FUNCTION then
      match bind_names st (table_of_entry child.entry) child with
      | none => none
      | some (st1, child1) =>
        match create_tables_loop st1 rest with
        | none => none
        | some (st2, rest1) => some (st2, child1 :: rest1)
    else
      match create_tables_loop st rest with
      | none => none
      | some (st2, rest1) => some (st2, child :: rest1)

/-- The function `create_tables`: the state and the syntax tree afterwards. -/
def create_tables (st : state_t) (tree : node_t) : Option (state_t × node_t) :=
  match find_globals st tree with
  | none => none
  | some (st1, g) =>
    match create_tables_loop { st1 with global_symbols := g } tree.children with
    | none => none
    | some (st2, children) => some (st2, { tree with children := children })

/-! ## Scope chains -/

/-- The frames reachable from a table pointer through the `backup` links are
exactly the frames at the addresses `chain`, innermost first, and the last link
is NULL. A chain described this way is finite and acyclic. -/
def scope_chain (heap : List symbol_table_t) : Option Nat → List Nat → Prop
  | none, [] => True
  | none, _ :: _ => False
  | some _, [] => False
  | some a, b :: rest =>
    a = b ∧ ∃ t, heap[a]? = some t ∧ scope_chain heap t.backup rest

/-- The first match along a chain of frames, innermost frame first. -/
def chain_lookup (heap : List symbol_table_t) (chain : List Nat) (name : data_t) :
    Option symbol_t :=
  chain.findSome? (fun a => (heap[a]?).bind (fun t => frame_find t name))

/-- The resolution the spec describes for an identifier: the first match along
the local chain, and the match along the global chain only when the local
chain has none. -/
def local_then_global (heap : List symbol_table_t) (local_chain global_chain : List Nat)
    (name : data_t) : Option symbol_t :=
  match chain_lookup heap local_chain name with
  | some s => some s
  | none => chain_lookup heap global_chain name

/-! ## Reading the tree -/

/-- The nodes `find_globals` makes a symbol for: the children of the `GLOBAL`
children of the syntax tree, in tree order (first argument: the children of
the syntax tree). -/
def global_declarations : List node_t → List node_t
  | [] => []
  | child :: rest =>
    if child.type = node_type_t.GLOBAL then child.children ++ global_declarations rest
    else global_declarations rest

/-- The descendant reached by following child indices from a node. -/
def node_at : node_t → List Nat → Option node_t
  | node, [] => some node
  | node, i :: path =>
    match node.children[i]? with
    | none => none
    | some child => node_at child path

/-! ## Example programs -/

/-- A leaf node. -/
def leaf (addr : Nat) (type : node_type_t) (data : data_t) : node_t :=
  { addr := addr, type := type, data := data, entry := entry_t.null, children := [] }

/-- An inner node without payload. -/
def inner (addr : Nat) (type : node_type_t) (children : List node_t) : node_t :=
  { addr := addr, type := type, data := data_t.null, entry := entry_t.null,
    children := children }

/-- The body `{ var y; x = a + y; }`: a block holding a declaration of `y` and
an assignment whose operands are the identifier references `x`, `a`, `y`. -/
def example_body : node_t :=
  inner 6 node_type_t.BLOCK
    [ inner 7 (node_type_t.OTHER 2) [leaf 8 node_type_t.IDENTIFIER_DATA (data_t.text "y")],
      inner 9 (node_type_t.OTHER 3)
        [ leaf 10 node_type_t.IDENTIFIER_DATA (data_t.text "x"),
          inner 11 (node_type_t.OTHER 4)
            [ leaf 12 node_type_t.IDENTIFIER_DATA (data_t.text "a"),
              leaf 13 node_type_t.IDENTIFIER_DATA (data_t.text "y") ] ] ]

/-- The function `f(a)` with the body above, as a node of kind `FUNCTION`:
child 0 is the parameter list, child 1 the body. -/
def example_function : node_t :=
  { addr := 3, type := node_type_t.FUNCTION, data := data_t.text "f",
    entry := entry_t.null,
    children := [ inner 4 (node_type_t.OTHER 1)
                    [leaf 5 node_type_t.IDENTIFIER_DATA (data_t.text "a")],
                  example_body ] }

/-- The program `global x; function f(a) { var y; x = a + y; }`. -/
def example_program : node_t :=
  inner 0 (node_type_t.OTHER 0)
    [ inner 1 node_type_t.GLOBAL [leaf 2 node_type_t.IDENTIFIER_DATA (data_t.text "x")],
      example_function ]

/-- A state in which an empty global symbol table has been allocated at
address 0 and `global_symbols` points to it. -/
def state_with_global_table : state_t :=
  { initial_state with heap := [{ symbols := [], backup := none }], global_symbols := some 0 }

/-- The global symbol of `x`, declared by the node at address 2. -/
def example_global_x : symbol_t :=
  { name := data_t.text "x", type := symtype_t.SYMBOL_GLOBAL, stack_offset := 0,
    data := none, node := 2 }

/-- A local symbol of `x`, declared by a node at address 20. -/
def example_local_x : symbol_t :=
  { name := data_t.text "x", type := symtype_t.SYMBOL_LOCAL, stack_offset := 0,
    data := none, node := 20 }

/-- The symbol of the parameter `a`, declared by the node at address 5. -/
def example_local_a : symbol_t :=
  { name := data_t.text "a", type := symtype_t.SYMBOL_LOCAL, stack_offset := 0,
    data := none, node := 5 }

/-- Three tables: the global table at address 0 holds `x`; the frame at address
1 holds `a` and has no enclosing frame; the frame at address 2 holds a local
`x` and is enclosed by the frame at address 1. -/
def example_scopes : state_t :=
  { initial_state with
    heap := [ { symbols := [example_global_x], backup := none },
              { symbols := [example_local_a], backup := none },
              { symbols := [example_local_x], backup := some 1 } ]
    global_symbols := some 0 }

/-- A program with a variable declaration `x` and an array declaration `arr`
below one `GLOBAL` node; the two declarations differ in their node kind. -/
def example_globals_program : node_t :=
  inner 0 (node_type_t.OTHER 0)
    [ inner 1 node_type_t.GLOBAL
        [ leaf 2 (node_type_t.OTHER 5) (data_t.text "x"),
          leaf 3 (node_type_t.OTHER 6) (data_t.text "arr") ] ]

/-- The function `f(a)` as a node of kind `FUNCTION_DATA`, the kind the
function branch of `bind_names` tests for. -/
def example_function_data : node_t :=
  { example_function with type := node_type_t.FUNCTION_DATA }

/-- A second function `g(b)`, as a node of kind `FUNCTION_DATA`, with an empty
block as body. -/
def example_function_g : node_t :=
  { addr := 40, type := node_type_t.FUNCTION_DATA, data := data_t.text "g",
    entry := entry_t.null,
    children := [ inner 41 (node_type_t.OTHER 1)
                    [leaf 42 node_type_t.IDENTIFIER_DATA (data_t.text "b")],
                  inner 43 node_type_t.BLOCK [] ] }

/-! ## Teardown -/

/-- The function `destroy_symbol_tables` (lines 155-158): its body holds a TODO
comment and no statement, so the state is returned as it is. -/
def destroy_symbol_tables (st : state_t) : state_t := st

/-- The function `destroy_string_list` (lines 182-186): its body holds a TODO
comment and no statement, so the state is returned as it is. -/
def destroy_string_list (st : state_t) : state_t := st

/-- The function `destroy_tables` (lines 62-66): the two calls in sequence. -/
def destroy_tables (st : state_t) : state_t :=
  destroy_string_list (destroy_symbol_tables st)

/-! ## Further examples -/

/-- The heap of `example_scopes` after the block branch has run on the frame at
address 2: that frame now links to the new empty frame at address 3, which
links to the frame at address 1. -/
def example_scopes_after_block : state_t :=
  { example_scopes with
    heap := [ { symbols := [example_global_x], backup := none },
              { symbols := [example_local_a], backup := none },
              { symbols := [example_local_x], backup := some 3 },
              { symbols := [], backup := some 1 } ] }

/-- The heap of `example_scopes` after the block branch has run on the frame at
address 1, which had no enclosing frame: it now links to the new empty frame at
address 3, which has no enclosing frame. -/
def example_scopes_after_root_block : state_t :=
  { example_scopes with
    heap := [ { symbols := [example_global_x], backup := none },
              { symbols := [example_local_a], backup := some 3 },
              { symbols := [example_local_x], backup := some 1 },
              { symbols := [], backup := none } ] }

/-- The declaration `var y` of the example body: a declaration node holding the
declared name. -/
def example_declaration : node_t :=
  inner 7 (node_type_t.OTHER 2) [leaf 8 node_type_t.IDENTIFIER_DATA (data_t.text "y")]

/-- The tables of `example_scopes` together with a string list that holds the
one string "a" in a storage of one slot. -/
def example_scopes_with_string : state_t :=
  { example_scopes with
    string_list := [some "a"], string_list_len := 1, string_list_capacity := 1 }

/-! ## The string list: supporting lemmas -/

theorem add_string_grow_zero (st : state_t) (h1 : st.string_list_len = 0)
    (h2 : st.string_list_capacity = 0) :
    (add_string_grow st).string_list = [] ∧ (add_string_grow st).string_list_capacity = 0
      ∧ (add_string_grow st).string_list_len = 0 := by
  simp [add_string_grow, h1, h2, realloc_slots, SIZE_MOD, SIZEOF_PTR]

theorem add_string_zero (st : state_t) (s : String) (h1 : st.string_list_len = 0)
    (h2 : st.string_list_capacity = 0) : add_string st s = none := by
  obtain ⟨a, b, c⟩ := add_string_grow_zero st h1 h2
  simp [add_string, add_string_store, a, c]

theorem add_string_room (st : state_t) (s : String)
    (hcap : 0 < st.string_list_capacity)
    (hlen : st.string_list.length = st.string_list_capacity)
    (hle : st.string_list_len ≤ st.string_list_capacity)
    (hsmall : st.string_list_capacity < 2 ^ 60) :
    ∃ st1, add_string st s = some (st1, st.string_list_len)
      ∧ st1.string_list_len = st.string_list_len + 1
      ∧ st1.string_list[st.string_list_len]? = some (some s)
      ∧ (∀ i, i < st.string_list_len → st1.string_list[i]? = st.string_list[i]?)
      ∧ st1.string_list.length = st1.string_list_capacity
      ∧ st1.string_list_len ≤ st1.string_list_capacity
      ∧ st.string_list_capacity ≤ st1.string_list_capacity
      ∧ st1.heap = st.heap ∧ st1.global_symbols = st.global_symbols := by
  by_cases heq : st.string_list_len = st.string_list_capacity
  · have hc : (st.string_list_capacity * 2) % SIZE_MOD = st.string_list_capacity * 2 := by
      apply Nat.mod_eq_of_lt; simp only [SIZE_MOD]; omega
    have hb : (st.string_list_capacity * 2 * SIZEOF_PTR) % SIZE_MOD
        = st.string_list_capacity * 2 * SIZEOF_PTR := by
      apply Nat.mod_eq_of_lt; simp only [SIZE_MOD, SIZEOF_PTR]; omega
    have hg : add_string_grow st = { st with
        string_list_capacity := st.string_list_capacity * 2
        string_list := st.string_list ++ List.replicate st.string_list_capacity none } := by
      simp only [add_string_grow, heq, if_true, hc, hb, realloc_slots]
      have : st.string_list_capacity * 2 * SIZEOF_PTR / SIZEOF_PTR = st.string_list_capacity * 2 := by
        simp [SIZEOF_PTR]
      rw [this]
      have h3 : List.take (st.string_list_capacity * 2) st.string_list = st.string_list := by
        apply List.take_of_length_le; omega
      rw [h3, hlen]
      have h4 : st.string_list_capacity * 2 - st.string_list_capacity = st.string_list_capacity := by omega
      rw [h4]
    have hm : (st.string_list_len + 1) % SIZE_MOD = st.string_list_len + 1 := by
      apply Nat.mod_eq_of_lt; simp only [SIZE_MOD]; omega
    simp only [add_string, hg, add_string_store]
    rw [if_pos (by simp [hlen]; omega)]
    refine ⟨_, rfl, ?_⟩
    · simp only [hm, List.length_set, List.length_append, List.length_replicate, hlen]
      refine ⟨trivial, ?_, ?_, by omega, by omega, by omega, trivial, trivial⟩
      · rw [List.getElem?_set_self]; simp [hlen]; omega
      · intro i hi
        rw [List.getElem?_set_ne (by omega), List.getElem?_append_left (by omega)]
  · have hg : add_string_grow st = st := by simp [add_string_grow, heq]
    have hlt : st.string_list_len < st.string_list.length := by omega
    have hm : (st.string_list_len + 1) % SIZE_MOD = st.string_list_len + 1 := by
      apply Nat.mod_eq_of_lt; simp only [SIZE_MOD]; omega
    simp only [add_string, hg, add_string_store]
    rw [if_pos hlt]
    refine ⟨_, rfl, ?_⟩
    · simp only [hm, List.length_set, hlen]
      refine ⟨trivial, ?_, ?_, trivial, by omega, le_refl _, trivial, trivial⟩
      · rw [List.getElem?_set_self]; simp [hlt]
      · intro i hi
        rw [List.getElem?_set_ne (by omega)]

/-! ## Scope chains: supporting lemmas -/

theorem scope_chain_cons {heap : List symbol_table_t} {p : Option Nat} {b : Nat}
    {rest : List Nat} (h : scope_chain heap p (b :: rest)) :
    p = some b ∧ ∃ t, heap[b]? = some t ∧ scope_chain heap t.backup rest := by
  cases p with
  | none => exact absurd h (by simp [scope_chain])
  | some a =>
    obtain ⟨hab, t, ht, hr⟩ := h
    subst hab
    exact ⟨rfl, t, ht, hr⟩

theorem scope_chain_nil {heap : List symbol_table_t} {p : Option Nat}
    (h : scope_chain heap p []) : p = none := by
  cases p with
  | none => rfl
  | some a => exact absurd h (by simp [scope_chain])

theorem scope_chain_unique {heap : List symbol_table_t} :
    ∀ (l1 l2 : List Nat) (p : Option Nat),
      scope_chain heap p l1 → scope_chain heap p l2 → l1 = l2
  | [], [], _, _, _ => rfl
  | [], _ :: _, p, h1, h2 => by
    have := scope_chain_nil h1
    have := (scope_chain_cons h2).1
    simp_all
  | _ :: _, [], p, h1, h2 => by
    have := scope_chain_nil h2
    have := (scope_chain_cons h1).1
    simp_all
  | a :: r1, b :: r2, p, h1, h2 => by
    obtain ⟨e1, t1, ht1, c1⟩ := scope_chain_cons h1
    obtain ⟨e2, t2, ht2, c2⟩ := scope_chain_cons h2
    have hab : a = b := by rw [e1] at e2; exact Option.some.inj e2
    subst hab
    have ht : t1 = t2 := by rw [ht1] at ht2; exact Option.some.inj ht2
    subst ht
    rw [scope_chain_unique r1 r2 _ c1 c2]

theorem scope_chain_suffix {heap : List symbol_table_t} :
    ∀ (xs : List Nat) (a : Nat) (ys : List Nat) (p : Option Nat),
      scope_chain heap p (xs ++ a :: ys) → scope_chain heap (some a) (a :: ys)
  | [], a, ys, p, h => by
    obtain ⟨e, t, ht, c⟩ := scope_chain_cons h
    exact ⟨rfl, t, ht, c⟩
  | x :: xs, a, ys, p, h => by
    obtain ⟨_, t, _, c⟩ := scope_chain_cons h
    exact scope_chain_suffix xs a ys _ c

theorem scope_chain_lt {heap : List symbol_table_t} :
    ∀ (l : List Nat) (p : Option Nat), scope_chain heap p l → ∀ a ∈ l, a < heap.length
  | [], _, _, a, ha => by simp at ha
  | b :: rest, p, h, a, ha => by
    obtain ⟨_, t, ht, c⟩ := scope_chain_cons h
    rcases List.mem_cons.mp ha with rfl | hr
    · by_contra hge
      rw [List.getElem?_eq_none (by omega)] at ht
      exact Option.noConfusion ht
    · exact scope_chain_lt rest _ c a hr

theorem scope_chain_nodup {heap : List symbol_table_t} :
    ∀ (l : List Nat) (p : Option Nat), scope_chain heap p l → l.Nodup
  | [], _, _ => List.nodup_nil
  | b :: rest, p, h => by
    obtain ⟨e, t, ht, c⟩ := scope_chain_cons h
    refine List.nodup_cons.mpr ⟨?_, scope_chain_nodup rest _ c⟩
    intro hb
    obtain ⟨xs, ys, hxy⟩ := List.append_of_mem hb
    have h1 : scope_chain heap (some b) (b :: ys) := by
      rw [hxy] at c
      exact scope_chain_suffix xs b ys _ c
    have h2 : scope_chain heap (some b) (b :: rest) := by rw [← e]; exact h
    have h3 := scope_chain_unique _ _ _ h1 h2
    have h4 : ys = rest := (List.cons.inj h3).2
    have h5 := congrArg List.length hxy
    rw [← h4] at h5
    simp at h5
    omega

theorem scope_chain_length_le {heap : List symbol_table_t} {p : Option Nat} {l : List Nat}
    (h : scope_chain heap p l) : l.length ≤ heap.length := by
  have hn := scope_chain_nodup l p h
  have hs : l.toFinset ⊆ Finset.range heap.length := by
    intro a ha
    exact Finset.mem_range.mpr (scope_chain_lt l p h a (List.mem_toFinset.mp ha))
  have hc := Finset.card_le_card hs
  rw [List.toFinset_card_of_nodup hn, Finset.card_range] at hc
  exact hc

theorem symbol_table_find_from_chain {heap : List symbol_table_t} (name : data_t) :
    ∀ (l : List Nat) (p : Option Nat) (fuel : Nat), scope_chain heap p l → l.length < fuel →
      symbol_table_find_from fuel heap p name = some (chain_lookup heap l name)
  | [], p, fuel, h, hf => by
    have hp := scope_chain_nil h
    subst hp
    cases fuel with
    | zero => omega
    | succ n => simp [symbol_table_find_from, chain_lookup]
  | b :: rest, p, fuel, h, hf => by
    obtain ⟨e, t, ht, c⟩ := scope_chain_cons h
    subst e
    cases fuel with
    | zero => omega
    | succ n =>
      have hlen : rest.length < n := by simp at hf; omega
      have ih := symbol_table_find_from_chain name rest t.backup n c hlen
      simp only [symbol_table_find_from, ht, chain_lookup, List.findSome?_cons, Option.bind_some]
      cases hff : frame_find t name with
      | some s => simp [hff]
      | none => simp [ih, chain_lookup, hff]

theorem symbol_table_find_chain {heap : List symbol_table_t} {p : Nat} {l : List Nat}
    (name : data_t) (h : scope_chain heap (some p) l) :
    symbol_table_find heap (some p) name = some (chain_lookup heap l name) := by
  have hl := scope_chain_length_le h
  simp only [symbol_table_find]
  exact symbol_table_find_from_chain name l (some p) (heap.length + 1) h (by omega)

/-! ## Inserting a run of symbols -/

theorem set_same_symbols {heap : List symbol_table_t} {g : Nat} {t : symbol_table_t}
    (h : heap[g]? = some t) : heap.set g { t with symbols := t.symbols ++ [] } = heap := by
  have hlt : g < heap.length := by
    by_contra hge
    rw [List.getElem?_eq_none (by omega)] at h
    exact Option.noConfusion h
  apply List.ext_getElem?
  intro i
  by_cases hi : g = i
  · subst hi
    rw [List.getElem?_set_self hlt, h]
    simp
  · rw [List.getElem?_set_ne hi]

theorem find_globals_inner_eq (g : Nat) :
    ∀ (decls : List node_t) (heap : List symbol_table_t) (t : symbol_table_t),
      heap[g]? = some t →
      find_globals_inner (some g) heap decls
        = some (heap.set g { t with symbols := t.symbols ++ decls.map global_symbol })
  | [], heap, t, h => by
    simp only [find_globals_inner, List.map_nil]
    rw [set_same_symbols h]
  | d :: rest, heap, t, h => by
    have hlt : g < heap.length := by
      by_contra hge
      rw [List.getElem?_eq_none (by omega)] at h
      exact Option.noConfusion h
    have h1 : (heap.set g { t with symbols := t.symbols ++ [global_symbol d] })[g]?
        = some { t with symbols := t.symbols ++ [global_symbol d] } := by
      rw [List.getElem?_set_self hlt]
    simp only [find_globals_inner, symbol_table_insert, h]
    rw [find_globals_inner_eq g rest _ _ h1]
    simp [List.set_set]

theorem find_globals_outer_eq (g : Nat) :
    ∀ (children : List node_t) (heap : List symbol_table_t) (t : symbol_table_t),
      heap[g]? = some t →
      find_globals_outer (some g) heap children
        = some (heap.set g
            { t with symbols := t.symbols ++ (global_declarations children).map global_symbol })
  | [], heap, t, h => by
    simp only [find_globals_outer, global_declarations, List.map_nil]
    rw [set_same_symbols h]
  | c :: rest, heap, t, h => by
    have hlt : g < heap.length := by
      by_contra hge
      rw [List.getElem?_eq_none (by omega)] at h
      exact Option.noConfusion h
    by_cases hc : c.type = node_type_t.GLOBAL
    · have h1 : (heap.set g { t with symbols := t.symbols ++ c.children.map global_symbol })[g]?
          = some { t with symbols := t.symbols ++ c.children.map global_symbol } := by
        rw [List.getElem?_set_self hlt]
      simp only [find_globals_outer, global_declarations, hc, if_true,
        find_globals_inner_eq g c.children heap t h]
      rw [find_globals_outer_eq g rest _ _ h1]
      simp [List.set_set]
    · simp only [find_globals_outer, global_declarations, hc, if_false]
      exact find_globals_outer_eq g rest heap t h

theorem bind_parameters_eq (g : Nat) :
    ∀ (params : List node_t) (heap : List symbol_table_t) (t : symbol_table_t),
      heap[g]? = some t →
      bind_parameters (some g) heap params
        = some (heap.set g { t with symbols := t.symbols ++ params.map parameter_symbol })
  | [], heap, t, h => by
    simp only [bind_parameters, List.map_nil]
    rw [set_same_symbols h]
  | d :: rest, heap, t, h => by
    have hlt : g < heap.length := by
      by_contra hge
      rw [List.getElem?_eq_none (by omega)] at h
      exact Option.noConfusion h
    have h1 : (heap.set g { t with symbols := t.symbols ++ [parameter_symbol d] })[g]?
        = some { t with symbols := t.symbols ++ [parameter_symbol d] } := by
      rw [List.getElem?_set_self hlt]
    simp only [bind_parameters, symbol_table_insert, h]
    rw [bind_parameters_eq g rest _ _ h1]
    simp [List.set_set]

theorem frame_find_none {t : symbol_table_t} {name : data_t}
    (h : ∀ s ∈ t.symbols, s.name ≠ name) : frame_find t name = none := by
  simp only [frame_find, List.find?_eq_none, List.mem_reverse]
  intro s hs
  simpa using h s hs

/-! ## Nodes that bind_names passes over -/

theorem bind_names_other (st : state_t) (local_symbols : Option Nat) (node : node_t)
    (h1 : node.type ≠ node_type_t.FUNCTION_DATA) (h2 : node.type ≠ node_type_t.BLOCK)
    (h3 : node.type ≠ node_type_t.IDENTIFIER_DATA) :
    bind_names st local_symbols node = some (st, node) := by
  simp [bind_names, bind_names_function, bind_names_block, bind_names_identifier, h1, h2, h3]

theorem create_tables_loop_same :
    ∀ (children : List node_t) (st : state_t),
      create_tables_loop st children = some (st, children)
  | [], st => rfl
  | c :: rest, st => by
    by_cases hc : c.type = node_type_t.FUNCTION
    · have hb : bind_names st (table_of_entry c.entry) c = some (st, c) :=
        bind_names_other st _ c (by rw [hc]; decide) (by rw [hc]; decide) (by rw [hc]; decide)
      simp only [create_tables_loop, hc, if_true, hb, create_tables_loop_same rest st]
    · simp only [create_tables_loop, hc, if_false, create_tables_loop_same rest st]

theorem create_tables_tree_same (st st1 : state_t) (tree tree1 : node_t)
    (h : create_tables st tree = some (st1, tree1)) : tree1 = tree := by
  simp only [create_tables] at h
  cases hf : find_globals st tree with
  | none => simp [hf] at h
  | some r =>
    obtain ⟨s, g⟩ := r
    simp only [hf, create_tables_loop_same] at h
    have := (Prod.mk.inj (Option.some.inj h)).2
    rw [← this]
    cases tree
    rfl

/-! ## The branches of bind_names -/

theorem bind_names_function_skip (st : state_t) (node : node_t)
    (h : node.type ≠ node_type_t.FUNCTION_DATA) :
    bind_names_function st node = some (st, node) := by
  simp only [bind_names_function, if_neg h]

theorem bind_names_block_skip (st : state_t) (local_symbols : Option Nat) (node : node_t)
    (h : node.type ≠ node_type_t.BLOCK) :
    bind_names_block st local_symbols node = some (st, node) := by
  simp only [bind_names_block, if_neg h]

theorem bind_names_identifier_skip (st : state_t) (local_symbols : Option Nat)
    (node : node_t) (h : node.type ≠ node_type_t.IDENTIFIER_DATA) :
    bind_names_identifier st local_symbols node = some (st, node) := by
  simp only [bind_names_identifier, if_neg h]

theorem bind_names_of_identifier (st : state_t) (local_symbols : Option Nat) (node : node_t)
    (h : node.type = node_type_t.IDENTIFIER_DATA) :
    bind_names st local_symbols node = bind_names_identifier st local_symbols node := by
  simp only [bind_names,
    bind_names_function_skip st node (by rw [h]; decide),
    bind_names_block_skip st local_symbols node (by rw [h]; decide)]

/-! ## Claims on binding -/

/-- C1 (the code departs from the claim). On the program
`global x; function f(a) { var y; x = a + y; }`, started with an allocated
empty global table, `create_tables` enters `x` into the global table and hands
the syntax tree back exactly as it was: `bind_names` is called on the `FUNCTION`
node only, tests for `FUNCTION_DATA`, and never descends, so the references to
`x`, `a` and `y` in the body are still identifier nodes with a null entry.
Started from the initial state, where `global_symbols` is NULL, `create_tables`
has no result at all. -/
theorem create_tables_leaves_references_unbound :
    (create_tables state_with_global_table example_program).map Prod.snd
        = some example_program
    ∧ ((create_tables state_with_global_table example_program).bind
          (fun r => node_at r.2 [1, 1, 1, 0])).map (fun n => (n.type, n.data, n.entry))
        = some (node_type_t.IDENTIFIER_DATA, data_t.text "x", entry_t.null)
    ∧ ((create_tables state_with_global_table example_program).bind
          (fun r => node_at r.2 [1, 1, 1, 1, 0])).map (fun n => (n.type, n.data, n.entry))
        = some (node_type_t.IDENTIFIER_DATA, data_t.text "a", entry_t.null)
    ∧ ((create_tables state_with_global_table example_program).bind
          (fun r => node_at r.2 [1, 1, 1, 1, 1])).map (fun n => (n.type, n.data, n.entry))
        = some (node_type_t.IDENTIFIER_DATA, data_t.text "y", entry_t.null)
    ∧ (create_tables state_with_global_table example_program).map
          (fun r => r.1.heap.map (fun t => t.symbols))
        = some [[example_global_x]]
    ∧ (create_tables initial_state example_program).map Prod.fst = none :=
  ⟨rfl, by decide, by decide, by decide, by decide, by decide⟩

/-- C2. For an identifier-reference node, a local scope chain starting at the
frame `l` and a global table `g`, `bind_names` returns, leaves the state as it
was and attaches the first match of the name along the local chain (innermost
frame first); the match in the global table is attached only when the local
chain has none. In particular a name found locally is bound to the local symbol,
whatever the global table holds. -/
theorem bind_names_identifier_local_first (st : state_t) (l g : Nat) (node : node_t)
    (local_chain global_chain : List Nat)
    (htype : node.type = node_type_t.IDENTIFIER_DATA)
    (hlocal : scope_chain st.heap (some l) local_chain)
    (hg : st.global_symbols = some g)
    (hglobal : scope_chain st.heap (some g) global_chain) :
    bind_names st (some l) node
        = some (st,
            { node with
              entry := entry_of_symbol
                (local_then_global st.heap local_chain global_chain node.data) })
    ∧ ∀ s, chain_lookup st.heap local_chain node.data = some s →
        bind_names st (some l) node = some (st, { node with entry := entry_t.symbol s }) := by
  have hmain : bind_names st (some l) node
        = some (st,
            { node with
              entry := entry_of_symbol
                (local_then_global st.heap local_chain global_chain node.data) }) := by
    rw [bind_names_of_identifier st (some l) node htype]
    simp only [bind_names_identifier, if_pos htype, symbol_table_find_chain node.data hlocal,
      hg, symbol_table_find_chain node.data hglobal]
    simp only [local_then_global]
    cases chain_lookup st.heap local_chain node.data with
    | none => rfl
    | some s => rfl
  refine ⟨hmain, ?_⟩
  intro s hs
  rw [hmain]
  simp only [local_then_global, hs]
  rfl

/-- Witness for C2: in `example_scopes` the name `x` is declared in the global
table and in the innermost local frame; the reference is bound to the local
symbol. -/
theorem bind_names_identifier_local_first_witness :
    scope_chain example_scopes.heap (some 2) [2, 1]
    ∧ scope_chain example_scopes.heap (some 0) [0]
    ∧ chain_lookup example_scopes.heap [0] (data_t.text "x") = some example_global_x
    ∧ bind_names example_scopes (some 2) (leaf 30 node_type_t.IDENTIFIER_DATA (data_t.text "x"))
        = some (example_scopes,
            { (leaf 30 node_type_t.IDENTIFIER_DATA (data_t.text "x")) with
              entry := entry_t.symbol example_local_x }) :=
  ⟨⟨rfl, _, rfl, rfl, _, rfl, trivial⟩, ⟨rfl, _, rfl, trivial⟩, by decide,
    (bind_names_identifier_local_first example_scopes 2 0
      (leaf 30 node_type_t.IDENTIFIER_DATA (data_t.text "x")) [2, 1] [0] rfl
      ⟨rfl, _, rfl, rfl, _, rfl, trivial⟩ rfl ⟨rfl, _, rfl, trivial⟩).2 example_local_x
      (by decide)⟩

/-- C3, counterexample to the claim as stated: the name `z` is in no frame of
the local chain and not in the global table of `example_scopes`, and `bind_names`
on the reference completes all the same: the state is returned unchanged, the
node keeps a null entry, and nothing records a failure. -/
theorem bind_names_unresolved_completes_silently :
    chain_lookup example_scopes.heap [2, 1] (data_t.text "z") = none
    ∧ chain_lookup example_scopes.heap [0] (data_t.text "z") = none
    ∧ bind_names example_scopes (some 2) (leaf 30 node_type_t.IDENTIFIER_DATA (data_t.text "z"))
        = some (example_scopes, leaf 30 node_type_t.IDENTIFIER_DATA (data_t.text "z"))
    ∧ (leaf 30 node_type_t.IDENTIFIER_DATA (data_t.text "z")).entry = entry_t.null :=
  ⟨by decide, by decide, rfl, rfl⟩

/-- C3 as amended. For an identifier-reference node whose name is found neither
along the local scope chain nor in the global table, `bind_names` completes:
it returns the state unchanged and the node with a null resolved symbol; no
failure is reported. -/
theorem bind_names_unresolved_null (st : state_t) (l g : Nat) (node : node_t)
    (local_chain global_chain : List Nat)
    (htype : node.type = node_type_t.IDENTIFIER_DATA)
    (hlocal : scope_chain st.heap (some l) local_chain)
    (hg : st.global_symbols = some g)
    (hglobal : scope_chain st.heap (some g) global_chain)
    (hnl : chain_lookup st.heap local_chain node.data = none)
    (hng : chain_lookup st.heap global_chain node.data = none) :
    bind_names st (some l) node = some (st, { node with entry := entry_t.null }) := by
  rw [bind_names_of_identifier st (some l) node htype]
  simp only [bind_names_identifier, if_pos htype, symbol_table_find_chain node.data hlocal,
    hg, symbol_table_find_chain node.data hglobal, hnl, hng]
  rfl

/-- Witness for C3 as amended: the reference to `z` in `example_scopes`. -/
theorem bind_names_unresolved_null_witness :
    scope_chain example_scopes.heap (some 2) [2, 1]
    ∧ scope_chain example_scopes.heap (some 0) [0]
    ∧ bind_names example_scopes (some 2) (leaf 30 node_type_t.IDENTIFIER_DATA (data_t.text "z"))
        = some (example_scopes,
            { (leaf 30 node_type_t.IDENTIFIER_DATA (data_t.text "z")) with
              entry := entry_t.null }) :=
  ⟨⟨rfl, _, rfl, rfl, _, rfl, trivial⟩, ⟨rfl, _, rfl, trivial⟩,
    bind_names_unresolved_null example_scopes 2 0
      (leaf 30 node_type_t.IDENTIFIER_DATA (data_t.text "z")) [2, 1] [0] rfl
      ⟨rfl, _, rfl, rfl, _, rfl, trivial⟩ rfl ⟨rfl, _, rfl, trivial⟩
      (by decide) (by decide)⟩

/-! ## Claims on the string list -/

/-- C4 (the code departs from the claim). Started from the initial string list
(no storage, length 0, capacity 0), interning "a", "b", "a" yields no index at
all, and neither does any other non-empty run of `add_string` calls: the first
call doubles the capacity 0 to 0 and stores outside the storage. -/
theorem add_strings_initial_state_no_result :
    add_strings initial_state ["a", "b", "a"] = none
    ∧ ∀ (s : String) (rest : List String), add_strings initial_state (s :: rest) = none := by
  have h : ∀ (s : String) (rest : List String),
      add_strings initial_state (s :: rest) = none := by
    intro s rest
    simp only [add_strings, add_string_zero initial_state s rfl rfl]
  exact ⟨h _ _, h⟩

/-- C5 (the code departs from the claim). In the initial state the resize step
of the first `add_string` call leaves the capacity at 0 and the storage without
any slot, so the store goes to index 0, which is not below the capacity 0: the
write is outside the backing storage. -/
theorem add_string_first_store_outside_storage :
    (add_string_grow initial_state).string_list_capacity = 0
    ∧ (add_string_grow initial_state).string_list_len = 0
    ∧ (add_string_grow initial_state).string_list = []
    ∧ ¬ ((add_string_grow initial_state).string_list_len
          < (add_string_grow initial_state).string_list_capacity)
    ∧ ∀ (s : String), add_string_store (add_string_grow initial_state) s = none := by
  obtain ⟨a, b, c⟩ := add_string_grow_zero initial_state rfl rfl
  refine ⟨b, c, a, by rw [b, c]; decide, ?_⟩
  intro s
  simp [add_string_store, a, c]

/-- C6 (the code departs from the claim). In every state whose length and
capacity are both 0, whatever the storage, `add_string` does not append: the
capacity stays 0, the reallocation leaves no slot, and the call has no defined
result in which the length is one more. -/
theorem add_string_zero_capacity_no_append (heap : List symbol_table_t)
    (global_symbols : Option Nat) (storage : List (Option String)) (s : String) :
    add_string { heap := heap, global_symbols := global_symbols, string_list := storage,
                 string_list_len := 0, string_list_capacity := 0 } s = none :=
  add_string_zero _ s rfl rfl

/-! ## Claims on string literals and declarations -/

/-- C7 (the code departs from the claim). On a string-literal node `bind_names`
does nothing: the state, string list included, is returned unchanged and the
node keeps the kind `STRING_DATA` and its text as payload. -/
theorem bind_names_string_data_untouched (st : state_t) (local_symbols : Option Nat)
    (addr : Nat) (s : String) (entry : entry_t) (children : List node_t) :
    bind_names st local_symbols
        { addr := addr, type := node_type_t.STRING_DATA, data := data_t.text s,
          entry := entry, children := children }
      = some (st, { addr := addr, type := node_type_t.STRING_DATA, data := data_t.text s,
                    entry := entry, children := children }) :=
  bind_names_other st local_symbols _ (by simp) (by simp) (by simp)

/-- C8, counterexample to the claim as stated: for a `GLOBAL` node holding the
variable declaration `x` and the array declaration `arr`, `find_globals` inserts
two symbols of the same kind `SYMBOL_GLOBAL`; the array does not get the
global-array kind. -/
theorem find_globals_array_kind_not_distinguished :
    (find_globals state_with_global_table example_globals_program).map
        (fun r => r.1.heap.map (fun t => t.symbols.map (fun s => (s.name, s.type))))
      = some [[(data_t.text "x", symtype_t.SYMBOL_GLOBAL),
               (data_t.text "arr", symtype_t.SYMBOL_GLOBAL)]]
    ∧ symtype_t.SYMBOL_GLOBAL ≠ symtype_t.SYMBOL_GLOBAL_ARRAY := by
  decide

/-- C8 as amended. For every syntax tree and every state whose `global_symbols`
points to an allocated table, `find_globals` returns that pointer and appends to
the table exactly one symbol per child of each top-level `GLOBAL` node, in tree
order; each symbol has the name of the declaration payload, kind
`SYMBOL_GLOBAL` (for variables and arrays alike), the declaring node, storage
offset 0 and no auxiliary data. Nothing else in the state changes. -/
theorem find_globals_inserts_declarations (st : state_t) (tree : node_t) (g : Nat)
    (t : symbol_table_t) (hg : st.global_symbols = some g) (ht : st.heap[g]? = some t) :
    find_globals st tree
      = some ({ st with
                heap := st.heap.set g
                  { t with
                    symbols := t.symbols ++ (global_declarations tree.children).map
                      (fun d => { name := d.data, type := symtype_t.SYMBOL_GLOBAL,
                                  stack_offset := 0, data := none, node := d.addr }) } },
              some g) := by
  simp only [find_globals, hg, find_globals_outer_eq g tree.children st.heap t ht]
  rfl

/-- Witness for C8 as amended: the program with `x` and `arr`. -/
theorem find_globals_inserts_declarations_witness :
    state_with_global_table.global_symbols = some 0
    ∧ state_with_global_table.heap[0]? = some { symbols := [], backup := none }
    ∧ find_globals state_with_global_table example_globals_program
      = some ({ state_with_global_table with
                heap :=
                  [ { symbols :=
                        [ { name := data_t.text "x", type := symtype_t.SYMBOL_GLOBAL,
                            stack_offset := 0, data := none, node := 2 },
                          { name := data_t.text "arr", type := symtype_t.SYMBOL_GLOBAL,
                            stack_offset := 0, data := none, node := 3 } ],
                      backup := none } ] },
              some 0) :=
  ⟨rfl, rfl,
    find_globals_inserts_declarations state_with_global_table example_globals_program 0
      { symbols := [], backup := none } rfl rfl⟩

/-- C9 (the code departs from the claim). On the program
`global x; function f(a) { .. }` `find_globals` only enters `x`: the loop passes
over the `FUNCTION` child, so the global table holds no symbol of kind function,
no table is allocated for `f`, and after the whole of `create_tables` the
function node still has a null entry. -/
theorem find_globals_skips_functions :
    (example_program.children.map (fun c => c.type))
        = [node_type_t.GLOBAL, node_type_t.FUNCTION]
    ∧ find_globals state_with_global_table example_program
        = some ({ state_with_global_table with
                  heap := [{ symbols := [example_global_x], backup := none }] },
                some 0)
    ∧ example_global_x.type ≠ symtype_t.SYMBOL_FUNCTION
    ∧ ((create_tables state_with_global_table example_program).bind
          (fun r => node_at r.2 [1])).map (fun n => (n.type, n.data, n.entry))
        = some (node_type_t.FUNCTION, data_t.text "f", entry_t.null) := by
  decide

/-! ## Claims on the function branch -/

theorem append_set_length (heap : List symbol_table_t) (e t : symbol_table_t) :
    (heap ++ [e]).set heap.length t = heap ++ [t] := by
  apply List.ext_getElem?
  intro i
  by_cases hi : heap.length = i
  · subst hi
    rw [List.getElem?_set_self (by simp)]
    simp
  · rw [List.getElem?_set_ne hi]
    by_cases hlt : i < heap.length
    · rw [List.getElem?_append_left hlt, List.getElem?_append_left hlt]
    · rw [List.getElem?_eq_none (by simp; omega), List.getElem?_eq_none (by simp; omega)]

theorem scope_chain_single {heap : List symbol_table_t} {n : Nat} {t : symbol_table_t}
    (h : heap[n]? = some t) (hb : t.backup = none) : scope_chain heap (some n) [n] := by
  refine ⟨rfl, t, h, ?_⟩
  rw [hb]
  exact trivial

theorem bind_names_function_eq (st : state_t) (node parameters : node_t)
    (rest : List node_t) (htype : node.type = node_type_t.FUNCTION_DATA)
    (hch : node.children = parameters :: rest) :
    bind_names_function st node
      = some ({ st with
                heap := st.heap ++
                  [{ symbols := parameters.children.map parameter_symbol, backup := none }] },
              { node with entry := entry_t.table st.heap.length }) := by
  have h0 : (st.heap ++ [({ symbols := [], backup := none } : symbol_table_t)])[st.heap.length]?
      = some { symbols := [], backup := none } := by simp
  simp only [bind_names_function, if_pos htype, symbol_table_init, hch,
    List.getElem?_cons_zero, bind_parameters_eq st.heap.length parameters.children _ _ h0,
    append_set_length, List.nil_append]

/-- C10, counterexample to the claim as stated: for the function `f(a)` the
table that `bind_names` attaches holds one symbol, for `a`, and its kind is
`SYMBOL_LOCAL`, not the parameter kind. -/
theorem bind_names_parameter_kind_is_local :
    (bind_names example_scopes none example_function_data).map
        (fun r => (r.2.entry, (r.1.heap[3]?).map (fun t => t.symbols.map (fun s => (s.name, s.type)))))
      = some (entry_t.table 3, some [(data_t.text "a", symtype_t.SYMBOL_LOCAL)])
    ∧ symtype_t.SYMBOL_LOCAL ≠ symtype_t.SYMBOL_PARAMETER := by
  decide

/-- C10 as amended. For every node of kind `FUNCTION_DATA` whose first child is
the parameter list, `bind_names` returns and attaches to the node a table at a
fresh address (the end of the heap; every table allocated before is left as it
was). The table has no enclosing frame and holds exactly one symbol per formal
parameter, in declaration order, each with the name of the parameter, kind
`SYMBOL_LOCAL`, the parameter as declaring node, storage offset 0 and no
auxiliary data, and nothing else. Hence a name that is not a parameter of this
function is not found by a lookup in its table, whatever other tables hold. -/
theorem bind_names_function_table (st : state_t) (local_symbols : Option Nat)
    (node parameters : node_t) (rest : List node_t)
    (htype : node.type = node_type_t.FUNCTION_DATA)
    (hch : node.children = parameters :: rest) :
    bind_names st local_symbols node
      = some ({ st with
                heap := st.heap ++
                  [{ symbols := parameters.children.map
                       (fun p => { name := p.data, type := symtype_t.SYMBOL_LOCAL,
                                   stack_offset := 0, data := none, node := p.addr }),
                     backup := none }] },
              { node with entry := entry_t.table st.heap.length })
    ∧ st.heap[st.heap.length]? = none
    ∧ ∀ name, (∀ p ∈ parameters.children, p.data ≠ name) →
        symbol_table_find
          (st.heap ++
            [{ symbols := parameters.children.map
                 (fun p => { name := p.data, type := symtype_t.SYMBOL_LOCAL,
                             stack_offset := 0, data := none, node := p.addr }),
               backup := none }])
          (some st.heap.length) name = some none := by
  refine ⟨?_, by simp, ?_⟩
  · simp only [bind_names, bind_names_function_eq st node parameters rest htype hch]
    rw [bind_names_block_skip _ _ _ (by simp [htype])]
    simp only []
    rw [bind_names_identifier_skip _ _ _ (by simp [htype])]
    rfl
  · intro name hname
    have hc : scope_chain
        (st.heap ++
          [{ symbols := parameters.children.map
               (fun p => { name := p.data, type := symtype_t.SYMBOL_LOCAL,
                           stack_offset := 0, data := none, node := p.addr }),
             backup := none }])
        (some st.heap.length) [st.heap.length] :=
      scope_chain_single (List.getElem?_concat_length _ _) rfl
    rw [symbol_table_find_chain name hc]
    simp only [chain_lookup, List.findSome?_cons, List.findSome?_nil]
    have hf : frame_find
        { symbols := parameters.children.map
            (fun p => ({ name := p.data, type := symtype_t.SYMBOL_LOCAL,
                         stack_offset := 0, data := none, node := p.addr } : symbol_t)),
          backup := none } name = none := by
      apply frame_find_none
      intro s hs
      simp only [List.mem_map] at hs
      obtain ⟨p, hp, rfl⟩ := hs
      exact hname p hp
    simp [hf]

/-- Witness for C10 as amended: `g(b)` bound in a state that already holds the
frames of `f`; the table of `g` is the new table at address 3 and holds `b`
only, so the name `a`, declared in `f`, is not found in it. -/
theorem bind_names_function_table_witness :
    example_function_g.type = node_type_t.FUNCTION_DATA
    ∧ (bind_names example_scopes none example_function_g).map
          (fun r => (r.2.entry, r.1.heap.drop 3))
        = some (entry_t.table 3,
            [{ symbols := [{ name := data_t.text "b", type := symtype_t.SYMBOL_LOCAL,
                             stack_offset := 0, data := none, node := 42 }],
               backup := none }])
    ∧ (∀ p ∈ [leaf 42 node_type_t.IDENTIFIER_DATA (data_t.text "b")],
          p.data ≠ data_t.text "a")
    ∧ symbol_table_find
          (example_scopes.heap ++
            [{ symbols := [{ name := data_t.text "b", type := symtype_t.SYMBOL_LOCAL,
                             stack_offset := 0, data := none, node := 42 }],
               backup := none }])
          (some 3) (data_t.text "a") = some none :=
  ⟨rfl,
    by rw [(bind_names_function_table example_scopes none example_function_g
        (inner 41 (node_type_t.OTHER 1)
          [leaf 42 node_type_t.IDENTIFIER_DATA (data_t.text "b")])
        [inner 43 node_type_t.BLOCK []] rfl rfl).1]; rfl,
    by simp [leaf],
    (bind_names_function_table example_scopes none example_function_g
        (inner 41 (node_type_t.OTHER 1)
          [leaf 42 node_type_t.IDENTIFIER_DATA (data_t.text "b")])
        [inner 43 node_type_t.BLOCK []] rfl rfl).2.2 (data_t.text "a") (by simp [leaf, inner])⟩

/-! ## The block branch -/

theorem getElem?_lt_length {heap : List symbol_table_t} {a : Nat} {t : symbol_table_t}
    (h : heap[a]? = some t) : a < heap.length := by
  by_contra hge
  rw [List.getElem?_eq_none (by omega)] at h
  exact Option.noConfusion h

theorem bind_names_block_eq (st : state_t) (l : Nat) (t : symbol_table_t) (node : node_t)
    (htype : node.type = node_type_t.BLOCK) (ht : st.heap[l]? = some t) :
    bind_names_block st (some l) node
      = some ({ st with
                heap := st.heap.set l { t with backup := some st.heap.length }
                  ++ [{ symbols := [], backup := t.backup }] },
              node) := by
  have hl : l < st.heap.length := getElem?_lt_length ht
  have h1 : (st.heap ++ [({ symbols := [], backup := none } : symbol_table_t)]).set l
        { t with backup := some st.heap.length }
      = st.heap.set l { t with backup := some st.heap.length }
        ++ [{ symbols := [], backup := none }] := by
    apply List.ext_getElem?
    intro i
    by_cases hi : l = i
    · subst hi
      rw [List.getElem?_set_self (by simp; omega),
        List.getElem?_append_left (by simp; omega), List.getElem?_set_self hl]
    · rw [List.getElem?_set_ne hi]
      by_cases hlt : i < st.heap.length
      · rw [List.getElem?_append_left hlt, List.getElem?_append_left (by simp; omega),
          List.getElem?_set_ne hi]
      · have hge : st.heap.length ≤ i := by omega
        rw [List.getElem?_append_right hge,
          List.getElem?_append_right (by simp; omega)]
        simp
  have h2 : (st.heap.set l { t with backup := some st.heap.length }
        ++ [({ symbols := [], backup := none } : symbol_table_t)])[st.heap.length]?
      = some { symbols := [], backup := none } := by
    simp
  have h3 : (st.heap.set l { t with backup := some st.heap.length }
        ++ [({ symbols := [], backup := none } : symbol_table_t)]).set st.heap.length
          { symbols := [], backup := t.backup }
      = st.heap.set l { t with backup := some st.heap.length }
        ++ [{ symbols := [], backup := t.backup }] := by
    have := append_set_length (st.heap.set l { t with backup := some st.heap.length })
      { symbols := [], backup := none } { symbols := [], backup := t.backup }
    rw [List.length_set] at this
    exact this
  simp only [bind_names_block, if_pos htype, ht, symbol_table_init, h1, h2, h3]

theorem bind_names_of_block (st : state_t) (local_symbols : Option Nat) (node : node_t)
    (h : node.type = node_type_t.BLOCK) :
    bind_names st local_symbols node = bind_names_block st local_symbols node := by
  simp only [bind_names, bind_names_function_skip st node (by rw [h]; decide)]
  cases hb : bind_names_block st local_symbols node with
  | none => rfl
  | some r =>
    obtain ⟨st2, node2⟩ := r
    have hn : node2 = node := by
      simp only [bind_names_block, if_pos h] at hb
      cases local_symbols with
      | none => simp at hb
      | some l =>
        simp only at hb
        cases ht : st.heap[l]? with
        | none => simp [ht] at hb
        | some t =>
          rw [ht] at hb
          simp only [symbol_table_init] at hb
          split at hb
          · exact Option.noConfusion hb
          · exact ((Prod.mk.inj (Option.some.inj hb)).2).symm
    subst hn
    simp only []
    exact bind_names_identifier_skip st2 local_symbols node2 (by rw [h]; decide)

theorem bind_names_block_result (st : state_t) (l : Nat)
    (t : symbol_table_t) (node : node_t) (htype : node.type = node_type_t.BLOCK)
    (ht : st.heap[l]? = some t) :
    bind_names st (some l) node
      = some ({ st with
                heap := st.heap.set l { t with backup := some st.heap.length }
                  ++ [{ symbols := [], backup := t.backup }] },
              node) := by
  rw [bind_names_of_block st (some l) node htype, bind_names_block_eq st l t node htype ht]

theorem scope_chain_congr {heap heap1 : List symbol_table_t} :
    ∀ (c : List Nat) (p : Option Nat), scope_chain heap p c →
      (∀ a ∈ c, heap1[a]? = heap[a]?) → scope_chain heap1 p c
  | [], p, h, _ => by
    have := scope_chain_nil h
    subst this
    exact trivial
  | b :: rest, p, h, hagree => by
    obtain ⟨e, t, ht, c⟩ := scope_chain_cons h
    subst e
    refine ⟨rfl, t, ?_, ?_⟩
    · rw [hagree b (List.mem_cons_self _ _)]; exact ht
    · exact scope_chain_congr rest _ c (fun a ha => hagree a (List.mem_cons_of_mem _ ha))

theorem chain_lookup_congr {heap heap1 : List symbol_table_t} (name : data_t) :
    ∀ (c : List Nat), (∀ a ∈ c, heap1[a]? = heap[a]?) →
      chain_lookup heap1 c name = chain_lookup heap c name
  | [], _ => rfl
  | b :: rest, hagree => by
    have ih := chain_lookup_congr name rest (fun a ha => hagree a (List.mem_cons_of_mem _ ha))
    simp only [chain_lookup, List.findSome?_cons] at ih ⊢
    rw [hagree b (List.mem_cons_self _ _), ih]

/-- The heap after the block branch agrees with the heap before on every frame
of the chain behind the given frame. -/
theorem block_heap_agree {heap : List symbol_table_t} {l : Nat} (t : symbol_table_t)
    {rest : List Nat} (h : scope_chain heap (some l) (l :: rest)) :
    ∀ a ∈ rest,
      (heap.set l { t with backup := some heap.length }
        ++ [{ symbols := [], backup := t.backup }])[a]? = heap[a]? := by
  intro a ha
  have hlt : a < heap.length := scope_chain_lt _ _ h a (List.mem_cons_of_mem _ ha)
  have hne : l ≠ a := by
    have hn := scope_chain_nodup _ _ h
    intro e
    subst e
    exact (List.nodup_cons.mp hn).1 ha
  rw [List.getElem?_append_left (by simp; omega), List.getElem?_set_ne hne]

theorem block_chain {heap : List symbol_table_t} {l : Nat} {t : symbol_table_t}
    {rest : List Nat} (h : scope_chain heap (some l) (l :: rest)) (ht : heap[l]? = some t) :
    scope_chain
      (heap.set l { t with backup := some heap.length }
        ++ [{ symbols := [], backup := t.backup }])
      (some l) (l :: heap.length :: rest) := by
  have hl : l < heap.length := getElem?_lt_length ht
  obtain ⟨_, t0, ht0, c⟩ := scope_chain_cons h
  have et : t0 = t := by rw [ht] at ht0; exact (Option.some.inj ht0).symm
  subst et
  refine ⟨rfl, { t0 with backup := some heap.length }, ?_, rfl, { symbols := [], backup := t0.backup }, ?_, ?_⟩
  · rw [List.getElem?_append_left (by simp; omega), List.getElem?_set_self hl]
  · simp
  · exact scope_chain_congr rest _ c (block_heap_agree t0 h)

theorem block_lookup {heap : List symbol_table_t} {l : Nat} {t : symbol_table_t}
    {rest : List Nat} (name : data_t) (h : scope_chain heap (some l) (l :: rest))
    (ht : heap[l]? = some t) :
    chain_lookup
      (heap.set l { t with backup := some heap.length }
        ++ [{ symbols := [], backup := t.backup }])
      (l :: heap.length :: rest) name
    = chain_lookup heap (l :: rest) name := by
  have hl : l < heap.length := getElem?_lt_length ht
  have h1 : (heap.set l { t with backup := some heap.length }
      ++ [({ symbols := [], backup := t.backup } : symbol_table_t)])[l]?
      = some { t with backup := some heap.length } := by
    rw [List.getElem?_append_left (by simp; omega), List.getElem?_set_self hl]
  have h2 : (heap.set l { t with backup := some heap.length }
      ++ [({ symbols := [], backup := t.backup } : symbol_table_t)])[heap.length]?
      = some { symbols := [], backup := t.backup } := by
    simp
  have h3 := chain_lookup_congr name rest (block_heap_agree t h)
  simp only [chain_lookup, List.findSome?_cons, h1, h2, ht, Option.bind_some] at h3 ⊢
  rw [h3]
  have hf : frame_find { symbols := t.symbols, backup := some heap.length } name
      = frame_find t name := rfl
  have he : frame_find { symbols := [], backup := t.backup } name = none := rfl
  simp only [Option.bind, hf, he]

/-! ## Claims on declarations, blocks and teardown -/

/-- C11 (the code departs from the claim). On the declaration `var y`
`bind_names` does nothing: the state is returned unchanged, so no symbol is
created or inserted, and a lookup of `y` from the current scope afterwards is
still not-found. The same holds for every node of a kind that `bind_names` has
no branch for; called on the declared name itself, an identifier node, it only
looks the name up and leaves the tables as they were. -/
theorem bind_names_declaration_not_inserted :
    bind_names example_scopes (some 2) example_declaration
        = some (example_scopes, example_declaration)
    ∧ symbol_table_find example_scopes.heap (some 2) (data_t.text "y") = some none
    ∧ (bind_names example_scopes (some 2)
          (leaf 8 node_type_t.IDENTIFIER_DATA (data_t.text "y"))).map
            (fun r => (r.1, r.2.entry))
        = some (example_scopes, entry_t.null)
    ∧ ∀ (st : state_t) (local_symbols : Option Nat) (addr tag : Nat) (data : data_t)
        (entry : entry_t) (children : List node_t),
        bind_names st local_symbols
            { addr := addr, type := node_type_t.OTHER tag, data := data, entry := entry,
              children := children }
          = some (st, { addr := addr, type := node_type_t.OTHER tag, data := data,
                        entry := entry, children := children }) :=
  ⟨rfl, by decide, by decide,
    fun st local_symbols _ _ _ _ _ =>
      bind_names_other st local_symbols _ (by simp) (by simp) (by simp)⟩

/-- C12, counterexample to the claim as stated: the block branch run on the
frame at address 2 of `example_scopes`, whose enclosing frame is the frame at
address 1, creates the empty frame at address 3 with enclosing frame 1, not 2,
and changes the enclosing link of the frame at address 2 to the new frame: the
new frame is linked in behind the given frame, not in front of it. -/
theorem bind_names_block_frame_not_innermost :
    (example_scopes.heap[2]?).map (fun t => t.backup) = some (some 1)
    ∧ (bind_names example_scopes (some 2) example_body).map Prod.fst
        = some example_scopes_after_block
    ∧ example_scopes_after_block.heap[3]? = some { symbols := [], backup := some 1 }
    ∧ (example_scopes_after_block.heap[2]?).map (fun t => t.backup) = some (some 3) := by
  decide

/-- C12 as amended. For every block node and every current scope frame `table`
(at address `l`), `bind_names` returns and creates one new empty frame, at the
fresh address at the end of the heap. The new frame is linked in directly
behind `table`: the enclosing scope of the new frame is the former enclosing
scope of `table`, and the enclosing link of `table` now points to the new
frame. The symbols of `table`, every other frame, the rest of the state and the
node are left as they were. -/
theorem bind_names_block_links_frame_behind (st : state_t) (l : Nat) (t : symbol_table_t)
    (node : node_t) (htype : node.type = node_type_t.BLOCK) (ht : st.heap[l]? = some t) :
    bind_names st (some l) node
      = some ({ st with
                heap := st.heap.set l { t with backup := some st.heap.length }
                  ++ [{ symbols := [], backup := t.backup }] },
              node)
    ∧ st.heap[st.heap.length]? = none := by
  exact ⟨bind_names_block_result st l t node htype ht, by simp⟩

/-- Witness for C12 as amended: the block branch on the frame at address 2 of
`example_scopes`. -/
theorem bind_names_block_links_frame_behind_witness :
    example_body.type = node_type_t.BLOCK
    ∧ example_scopes.heap[2]? = some { symbols := [example_local_x], backup := some 1 }
    ∧ bind_names example_scopes (some 2) example_body
        = some (example_scopes_after_block, example_body) :=
  ⟨rfl, rfl,
    (bind_names_block_links_frame_behind example_scopes 2
      { symbols := [example_local_x], backup := some 1 } example_body rfl rfl).1⟩

/-- C13 (the code departs from the claim). Before the call the chain of frames
reachable from the frame at address 2 of `example_scopes` is 2, 1. After
`bind_names` on the block has returned, the chain reachable from the same
handle is 2, 3, 1: the frame opened for the block is still linked in, no scope
has been closed, and the old chain is no longer the chain of that handle. -/
theorem bind_names_block_chain_not_restored :
    scope_chain example_scopes.heap (some 2) [2, 1]
    ∧ bind_names example_scopes (some 2) example_body
        = some (example_scopes_after_block, example_body)
    ∧ scope_chain example_scopes_after_block.heap (some 2) [2, 3, 1]
    ∧ ¬ scope_chain example_scopes_after_block.heap (some 2) [2, 1] := by
  have h1 : scope_chain example_scopes.heap (some 2) [2, 1] :=
    ⟨rfl, _, rfl, rfl, _, rfl, trivial⟩
  have h2 : scope_chain example_scopes_after_block.heap (some 2) [2, 3, 1] :=
    ⟨rfl, _, rfl, rfl, _, rfl, rfl, _, rfl, trivial⟩
  refine ⟨h1, rfl, h2, ?_⟩
  intro h3
  have := scope_chain_unique _ _ _ h3 h2
  exact absurd this (by decide)

/-- C14 (the code departs from the claim). The function `destroy_tables` returns
every state as it is: on a state with three symbol tables and the stored string
"a", the tables, their symbols, the string and the storage of the string list
are all still there afterwards; nothing has been released. -/
theorem destroy_tables_releases_nothing :
    (∀ st : state_t, destroy_tables st = st)
    ∧ (destroy_tables example_scopes_with_string).string_list = [some "a"]
    ∧ (destroy_tables example_scopes_with_string).string_list_len = 1
    ∧ (destroy_tables example_scopes_with_string).heap = example_scopes.heap
    ∧ example_scopes.heap.length = 3 :=
  ⟨fun _ => rfl, rfl, rfl, rfl, rfl⟩

/-- C15, counterexample to the claim as stated: the frame at address 1 of
`example_scopes` has no enclosing frame, so its chain is the single frame 1 and
ends at frame 1. After the block branch the chain reachable from it is 1, 3 and
ends at the new frame 3, not at the same last frame. -/
theorem bind_names_block_root_last_frame_changes :
    scope_chain example_scopes.heap (some 1) [1]
    ∧ bind_names example_scopes (some 1) example_body
        = some (example_scopes_after_root_block, example_body)
    ∧ scope_chain example_scopes_after_root_block.heap (some 1) [1, 3]
    ∧ ([1] : List Nat).getLast? = some 1
    ∧ ([1, 3] : List Nat).getLast? = some 3 :=
  ⟨⟨rfl, _, rfl, trivial⟩, rfl, ⟨rfl, _, rfl, rfl, _, rfl, trivial⟩, rfl, rfl⟩

/-- C15 as amended. For every block node and every scope frame whose enclosing
chain is finite and acyclic (the frames `l :: rest`), `bind_names` returns and
the chain reachable from the frame afterwards is the old chain with the new
frame inserted directly behind the given frame: it is finite and acyclic again
(no address occurs twice). When the frame had an enclosing frame, the chain
still ends at the same last frame as before; when it had none, the chain now
ends at the new frame. -/
theorem bind_names_block_chain_acyclic (st : state_t) (l : Nat) (rest : List Nat)
    (node : node_t) (htype : node.type = node_type_t.BLOCK)
    (h : scope_chain st.heap (some l) (l :: rest)) :
    ∃ st1, bind_names st (some l) node = some (st1, node)
      ∧ scope_chain st1.heap (some l) (l :: st.heap.length :: rest)
      ∧ (l :: st.heap.length :: rest).Nodup
      ∧ (rest ≠ [] → (l :: st.heap.length :: rest).getLast? = (l :: rest).getLast?)
      ∧ (rest = [] → (l :: st.heap.length :: rest).getLast? = some st.heap.length) := by
  obtain ⟨_, t, ht, _⟩ := scope_chain_cons h
  have hc := block_chain h ht
  refine ⟨_, (bind_names_block_result st l t node htype ht), hc,
    scope_chain_nodup _ _ hc, ?_, ?_⟩
  · intro hne
    cases rest with
    | nil => exact absurd rfl hne
    | cons b r => simp [List.getLast?_cons_cons]
  · intro he
    subst he
    rfl

/-- Witness for C15 as amended: the frame at address 2 of `example_scopes`,
enclosed by the frame at address 1. -/
theorem bind_names_block_chain_acyclic_witness :
    example_body.type = node_type_t.BLOCK
    ∧ scope_chain example_scopes.heap (some 2) [2, 1]
    ∧ ∃ st1, bind_names example_scopes (some 2) example_body = some (st1, example_body)
      ∧ scope_chain st1.heap (some 2) [2, 3, 1]
      ∧ ([2, 3, 1] : List Nat).Nodup
      ∧ (([1] : List Nat) ≠ [] → ([2, 3, 1] : List Nat).getLast? = ([2, 1] : List Nat).getLast?)
      ∧ (([1] : List Nat) = [] → ([2, 3, 1] : List Nat).getLast? = some 3) :=
  ⟨rfl, ⟨rfl, _, rfl, rfl, _, rfl, trivial⟩,
    bind_names_block_chain_acyclic example_scopes 2 [1] example_body rfl
      ⟨rfl, _, rfl, rfl, _, rfl, trivial⟩⟩

/-! ## Claims on the capacity and on what bind_names leaves alone -/

/-- C16. For every pool state, the resize step of `add_string` leaves
`string_list_capacity` unchanged when `string_list_len` differs from it, and
sets it to twice its value modulo `2 ^ 64` when they are equal; the store runs
on the state after that step and does not change the capacity, so every call
that yields a position ends with exactly that capacity. -/
theorem add_string_capacity_rule (st : state_t) (s : String) :
    (st.string_list_len ≠ st.string_list_capacity →
        (add_string_grow st).string_list_capacity = st.string_list_capacity)
    ∧ (st.string_list_len = st.string_list_capacity →
        (add_string_grow st).string_list_capacity = (st.string_list_capacity * 2) % 2 ^ 64)
    ∧ add_string st s = add_string_store (add_string_grow st) s
    ∧ ∀ st1 i, add_string st s = some (st1, i) →
        st1.string_list_capacity = (add_string_grow st).string_list_capacity := by
  refine ⟨?_, ?_, rfl, ?_⟩
  · intro hne
    simp only [add_string_grow, if_neg hne]
  · intro he
    simp only [add_string_grow, if_pos he, SIZE_MOD]
  · intro st1 i h
    simp only [add_string, add_string_store] at h
    split at h
    · have := (Prod.mk.inj (Option.some.inj h)).1
      rw [← this]
    · exact Option.noConfusion h

/-- Witness for C16: a full list of one string in a storage of one slot; the
call doubles the capacity to 2 and stores at position 1. -/
theorem add_string_capacity_rule_witness :
    example_scopes_with_string.string_list_len = example_scopes_with_string.string_list_capacity
    ∧ (add_string_grow example_scopes_with_string).string_list_capacity = (1 * 2) % 2 ^ 64
    ∧ add_string example_scopes_with_string "b"
        = some ({ example_scopes_with_string with
                  string_list := [some "a", some "b"], string_list_len := 2,
                  string_list_capacity := 2 }, 1)
    ∧ ({ example_scopes_with_string with
         string_list := [some "a", some "b"], string_list_len := 2,
         string_list_capacity := 2 } : state_t).string_list_capacity
        = (add_string_grow example_scopes_with_string).string_list_capacity :=
  ⟨rfl, (add_string_capacity_rule example_scopes_with_string "b").2.1 rfl, by decide,
    (add_string_capacity_rule example_scopes_with_string "b").2.2.2 _ 1 (by decide)⟩

/-- C17. For every block node, every scope frame with a finite acyclic
enclosing chain (the frames `l :: rest`) and every name, `bind_names` returns,
and the lookup of the name from the given frame gives the same result after the
call as before it, namely the first match along the old chain. The frame that
the block branch links in is empty, and the chain reachable from the given
frame is exactly one frame longer than before. -/
theorem bind_names_block_lookup_unchanged (st : state_t) (l : Nat) (rest : List Nat)
    (node : node_t) (name : data_t) (htype : node.type = node_type_t.BLOCK)
    (h : scope_chain st.heap (some l) (l :: rest)) :
    ∃ st1, bind_names st (some l) node = some (st1, node)
      ∧ symbol_table_find st1.heap (some l) name = symbol_table_find st.heap (some l) name
      ∧ symbol_table_find st.heap (some l) name = some (chain_lookup st.heap (l :: rest) name)
      ∧ (st1.heap[st.heap.length]?).map (fun t => t.symbols) = some []
      ∧ scope_chain st1.heap (some l) (l :: st.heap.length :: rest)
      ∧ (l :: st.heap.length :: rest).length = (l :: rest).length + 1 := by
  obtain ⟨_, t, ht, _⟩ := scope_chain_cons h
  have hc := block_chain h ht
  refine ⟨_, bind_names_block_result st l t node htype ht, ?_,
    symbol_table_find_chain name h, ?_, hc, rfl⟩
  · rw [symbol_table_find_chain name hc, symbol_table_find_chain name h,
      block_lookup name h ht]
  · simp

/-- Witness for C17: in `example_scopes` the name `a` is found from the frame at
address 2 through its enclosing frame, before and after the block branch. -/
theorem bind_names_block_lookup_unchanged_witness :
    example_body.type = node_type_t.BLOCK
    ∧ scope_chain example_scopes.heap (some 2) [2, 1]
    ∧ chain_lookup example_scopes.heap [2, 1] (data_t.text "a") = some example_local_a
    ∧ ∃ st1, bind_names example_scopes (some 2) example_body = some (st1, example_body)
      ∧ symbol_table_find st1.heap (some 2) (data_t.text "a")
          = symbol_table_find example_scopes.heap (some 2) (data_t.text "a")
      ∧ symbol_table_find example_scopes.heap (some 2) (data_t.text "a")
          = some (chain_lookup example_scopes.heap [2, 1] (data_t.text "a"))
      ∧ (st1.heap[example_scopes.heap.length]?).map (fun t => t.symbols) = some []
      ∧ scope_chain st1.heap (some 2) [2, example_scopes.heap.length, 1]
      ∧ ([2, example_scopes.heap.length, 1] : List Nat).length
          = ([2, 1] : List Nat).length + 1 :=
  ⟨rfl, ⟨rfl, _, rfl, rfl, _, rfl, trivial⟩, by decide,
    bind_names_block_lookup_unchanged example_scopes 2 [1] example_body (data_t.text "a") rfl
      ⟨rfl, _, rfl, rfl, _, rfl, trivial⟩⟩

theorem bind_names_function_none (st : state_t) (node : node_t)
    (htype : node.type = node_type_t.FUNCTION_DATA) (hch : node.children = []) :
    bind_names_function st node = none := by
  simp [bind_names_function, htype, hch, symbol_table_init]

theorem bind_names_of_function (st : state_t) (local_symbols : Option Nat)
    (node parameters : node_t) (rest : List node_t)
    (htype : node.type = node_type_t.FUNCTION_DATA)
    (hch : node.children = parameters :: rest) :
    bind_names st local_symbols node
      = some ({ st with
                heap := st.heap ++
                  [{ symbols := parameters.children.map parameter_symbol, backup := none }] },
              { node with entry := entry_t.table st.heap.length }) := by
  simp only [bind_names, bind_names_function_eq st node parameters rest htype hch]
  rw [bind_names_block_skip _ _ _ (by simp [htype])]
  simp only []
  rw [bind_names_identifier_skip _ _ _ (by simp [htype])]

theorem bind_names_identifier_shape (st st1 : state_t) (local_symbols : Option Nat)
    (node node1 : node_t)
    (h : bind_names_identifier st local_symbols node = some (st1, node1)) :
    st1 = st ∧ node1.addr = node.addr ∧ node1.type = node.type ∧ node1.data = node.data
      ∧ node1.children = node.children := by
  simp only [bind_names_identifier] at h
  split at h
  · split at h
    · exact Option.noConfusion h
    · obtain ⟨e1, e2⟩ := Prod.mk.inj (Option.some.inj h)
      subst e1 e2
      exact ⟨rfl, rfl, rfl, rfl, rfl⟩
    · split at h
      · exact Option.noConfusion h
      · obtain ⟨e1, e2⟩ := Prod.mk.inj (Option.some.inj h)
        subst e1 e2
        exact ⟨rfl, rfl, rfl, rfl, rfl⟩
  · obtain ⟨e1, e2⟩ := Prod.mk.inj (Option.some.inj h)
    subst e1 e2
    exact ⟨rfl, rfl, rfl, rfl, rfl⟩

/-- C18. A call of `bind_names` that has a result leaves the called node with
its address, kind, payload and children (so every descendant is untouched: the
function never descends), leaves the string list and the `global_symbols`
pointer as they were, and leaves every symbol table that existed before with
its symbols and, unless it is the scope passed in, with its enclosing link;
whatever else the heap holds afterwards is a newly allocated table. So at most
the attached entry of the node and the enclosing link of the given scope
change. For a node whose kind is none of `FUNCTION_DATA`, `BLOCK` and
`IDENTIFIER_DATA`, in particular for a `FUNCTION` node, the call returns the
state and the node unchanged. -/
theorem bind_names_frame (st : state_t) (local_symbols : Option Nat) (node : node_t) :
    (∀ st1 node1, bind_names st local_symbols node = some (st1, node1) →
        node1.addr = node.addr ∧ node1.type = node.type ∧ node1.data = node.data
        ∧ node1.children = node.children
        ∧ st1.string_list = st.string_list
        ∧ st1.string_list_len = st.string_list_len
        ∧ st1.string_list_capacity = st.string_list_capacity
        ∧ st1.global_symbols = st.global_symbols
        ∧ ∀ a t, st.heap[a]? = some t →
            ∃ t1, st1.heap[a]? = some t1 ∧ t1.symbols = t.symbols
              ∧ (local_symbols ≠ some a → t1.backup = t.backup))
    ∧ (node.type ≠ node_type_t.FUNCTION_DATA → node.type ≠ node_type_t.BLOCK →
        node.type ≠ node_type_t.IDENTIFIER_DATA →
        bind_names st local_symbols node = some (st, node))
    ∧ (node.type = node_type_t.FUNCTION →
        bind_names st local_symbols node = some (st, node)) := by
  refine ⟨?_, bind_names_other st local_symbols node, ?_⟩
  · intro st1 node1 h
    by_cases hF : node.type = node_type_t.FUNCTION_DATA
    · have hcases : node.children = [] ∨ ∃ p r, node.children = p :: r := by
        cases node.children with
        | nil => exact Or.inl rfl
        | cons p r => exact Or.inr ⟨p, r, rfl⟩
      rcases hcases with hch | ⟨parameters, rest, hch⟩
      · simp only [bind_names, bind_names_function_none st node hF hch] at h
        exact Option.noConfusion h
      · rw [bind_names_of_function st local_symbols node parameters rest hF hch] at h
        obtain ⟨e1, e2⟩ := Prod.mk.inj (Option.some.inj h)
        subst e1 e2
        refine ⟨rfl, rfl, rfl, rfl, rfl, rfl, rfl, rfl, ?_⟩
        intro a t hat
        refine ⟨t, ?_, rfl, fun _ => rfl⟩
        show (st.heap ++ _)[a]? = some t
        rw [List.getElem?_append_left (getElem?_lt_length hat)]
        exact hat
    · by_cases hB : node.type = node_type_t.BLOCK
      · rw [bind_names_of_block st local_symbols node hB] at h
        cases local_symbols with
        | none =>
          simp [bind_names_block, hB] at h
        | some l =>
          cases ht : st.heap[l]? with
          | none =>
            simp [bind_names_block, hB, ht] at h
          | some t0 =>
            rw [bind_names_block_eq st l t0 node hB ht] at h
            obtain ⟨e1, e2⟩ := Prod.mk.inj (Option.some.inj h)
            subst e1 e2
            refine ⟨rfl, rfl, rfl, rfl, rfl, rfl, rfl, rfl, ?_⟩
            intro a t hat
            have ha : a < st.heap.length := getElem?_lt_length hat
            by_cases hal : l = a
            · subst hal
              have et : t0 = t := by rw [ht] at hat; exact Option.some.inj hat
              subst et
              refine ⟨{ t0 with backup := some st.heap.length }, ?_, rfl,
                fun hne => absurd rfl hne⟩
              show (st.heap.set l _ ++ _)[l]? = _
              rw [List.getElem?_append_left (by simp; omega), List.getElem?_set_self ha]
            · refine ⟨t, ?_, rfl, fun _ => rfl⟩
              show (st.heap.set l _ ++ _)[a]? = _
              rw [List.getElem?_append_left (by simp; omega), List.getElem?_set_ne hal]
              exact hat
      · simp only [bind_names, bind_names_function_skip st node hF,
          bind_names_block_skip st local_symbols node hB] at h
        obtain ⟨e, h1, h2, h3, h4⟩ := bind_names_identifier_shape st st1 local_symbols node node1 h
        subst e
        exact ⟨h1, h2, h3, h4, rfl, rfl, rfl, rfl, fun a t hat => ⟨t, hat, rfl, fun _ => rfl⟩⟩
  · intro hF
    exact bind_names_other st local_symbols node (by rw [hF]; decide) (by rw [hF]; decide)
      (by rw [hF]; decide)

/-- Witness for C18: the call on the block of the example with the frame at
address 2 has a result; the block keeps its children, the string list and the
global pointer are as before, and the global table at address 0 is untouched. -/
theorem bind_names_frame_witness :
    bind_names example_scopes (some 2) example_body
        = some (example_scopes_after_block, example_body)
    ∧ example_scopes.heap[0]? = some { symbols := [example_global_x], backup := none }
    ∧ example_body.children = example_body.children
    ∧ example_scopes_after_block.string_list = example_scopes.string_list
    ∧ example_scopes_after_block.global_symbols = example_scopes.global_symbols
    ∧ ∃ t1, example_scopes_after_block.heap[0]? = some t1
        ∧ t1.symbols = [example_global_x]
        ∧ ((some 2 : Option Nat) ≠ some 0 → t1.backup = none) :=
  have h := (bind_names_frame example_scopes (some 2) example_body).1
    example_scopes_after_block example_body rfl
  ⟨rfl, rfl, h.2.2.2.1, h.2.2.2.2.1, h.2.2.2.2.2.2.2.1,
    h.2.2.2.2.2.2.2.2 0 { symbols := [example_global_x], backup := none } rfl⟩

end Symbols
